import Mathlib

/-!
Verification of the blueprint-compiler front end (parser entry point,
completion resolver, and two extension-language validators) against its
natural-language specification.  The Python sources under
`blueprintcompiler/` are shallowly embedded as executable Lean
definitions; theorems about those definitions settle the spec claims.
-/

set_option maxHeartbeats 1000000

namespace Blueprint

/-- Modelled from the spec: the lexical categories of `tokenizer.py` (not in
src/).  The spec lists identifier, operator/punctuation, number/string
literals, whitespace, line comments and end-of-file; completions.py refers to
`TokenType.IDENT`, `TokenType.WHITESPACE`, `TokenType.OP` and the skippable
categories (whitespace, comments). -/
inductive TokenType where
  | ident
  | op
  | number
  | string_lit
  | whitespace
  | comment
  | eof
  deriving DecidableEq, Repr

/-- Modelled from the spec: a token is a lexical kind together with its byte
span and raw text (`tokenizer.py` is not in src/; `parser.py` reads
`tokens[0].string`, `completions.py` reads `token.start`, `token.end`,
`token.type`).  The Python `end` field is named `stop` here because `end` is
reserved in Lean. -/
structure Token where
  type : TokenType
  start : Nat
  stop : Nat
  string : String
  deriving DecidableEq, Repr

/-- Modelled from the spec: `SKIP_TOKENS`, the fixed set of skippable
categories (whitespace, comments), imported by completions.py from the parser
module but defined in code not under src/. -/
def SKIP_TOKENS : List TokenType := [TokenType.comment, TokenType.whitespace]

/-- Python list indexing `tokens[i]` with an `Int` index: non-negative indices
index from the front, indices in `[-len, -1]` wrap around from the back, and
anything out of range raises `IndexError`, modelled as `none`. -/
def pyGet (tokens : List Token) (i : Int) : Option Token :=
  if 0 ≤ i then tokens.get? i.toNat
  else if 0 ≤ i + tokens.length then tokens.get? (i + tokens.length).toNat
  else none

theorem pyGet_nonneg (tokens : List Token) (i : Int) (h : 0 ≤ i) :
    pyGet tokens i = tokens.get? i.toNat := by
  simp [pyGet, h]

theorem pyGet_some_bounds {tokens : List Token} {i : Int} {t : Token}
    (h : pyGet tokens i = some t) : -(tokens.length : Int) ≤ i ∧ i < tokens.length := by
  unfold pyGet at h
  split at h
  · obtain ⟨hlt, -⟩ := List.get?_eq_some.mp h
    omega
  · split at h
    · obtain ⟨hlt, -⟩ := List.get?_eq_some.mp h
      omega
    · exact absurd h (by simp)

/-- Modelled from the spec: the suggestion kinds of
`lsp_utils.CompletionItemKind` (not in src/) that completions.py uses:
keyword, module, class, property, enum-member, event, snippet, constant. -/
inductive CompletionItemKind where
  | keyword
  | module
  | class_
  | property
  | enumMember
  | event
  | snippet
  | constant
  deriving DecidableEq, Repr

/-- Modelled from the spec: the suggestion record of `lsp_utils.Completion`
(not in src/), restricted to the fields the completers in completions.py
actually set: label, kind, sort priority, insertable snippet, plain insertable
text, documentation and detail. -/
structure Completion where
  label : String
  kind : CompletionItemKind
  sort_text : Option String := none
  snippet : Option String := none
  text : Option String := none
  docs : Option String := none
  detail : Option String := none
  deriving DecidableEq, Repr

/-- Modelled from the spec: the completion request state handed to completers
as `lsp`; the only capability completions.py reads is
`client_supports_completion_choice`. -/
structure LspState where
  client_supports_completion_choice : Bool
  deriving DecidableEq, Repr

/-- An AST node as seen by the completion resolver in `_complete`: its
governing span (`group.start`, `group.end` — `end` is spelled `stop`), its
`incomplete` flag, its registered completers and its ordered children.  A
completer is stored with its `ast_node` argument already closed over, since
each completer is only ever invoked on the node it is attached to; it still
receives the trailing token window and the `lsp` state. -/
inductive CompNode where
  | mk (start stop : Nat) (incomplete : Bool)
      (completers : List (List Token → LspState → List Completion))
      (children : List CompNode)

def CompNode.start : CompNode → Nat
  | .mk s _ _ _ _ => s

def CompNode.stop : CompNode → Nat
  | .mk _ e _ _ _ => e

def CompNode.incomplete : CompNode → Bool
  | .mk _ _ inc _ _ => inc

def CompNode.completers : CompNode → List (List Token → LspState → List Completion)
  | .mk _ _ _ comps _ => comps

def CompNode.children : CompNode → List CompNode
  | .mk _ _ _ _ cs => cs

/-- The descent condition of `_complete` (completions.py line 37):
`child.group.start <= idx and (idx < child.group.end or (idx ==
child.group.end and child.incomplete))`. -/
def containsIdx (child : CompNode) (idx : Nat) : Bool :=
  child.start ≤ idx && (decide (idx < child.stop) || (idx == child.stop && child.incomplete))

/-- The window-collection loop of `_complete` (completions.py lines 46-50),
walking `token_idx` down to 0: collect the 5 previous non-skipped tokens,
prepending each kept token.  `tokens[token_idx]` with `token_idx ≥ len(tokens)`
raises `IndexError`, modelled as `none`. -/
def collectPrevGo (tokens : List Token) : Nat → List Token → Option (List Token)
  | 0, acc =>
    if acc.length < 5 then
      match tokens.get? 0 with
      | none => none
      | some t => some (if t.type ∈ SKIP_TOKENS then acc else t :: acc)
    else some acc
  | n + 1, acc =>
    if acc.length < 5 then
      match tokens.get? (n + 1) with
      | none => none
      | some t => collectPrevGo tokens n (if t.type ∈ SKIP_TOKENS then acc else t :: acc)
    else some acc

/-- The window-collection loop of `_complete` for an arbitrary (possibly
negative) starting `token_idx`: the loop guard `token_idx >= 0` means a
negative start yields the empty window. -/
def collectPrev (tokens : List Token) (tIdx : Int) : Option (List Token) :=
  if 0 ≤ tIdx then collectPrevGo tokens tIdx.toNat [] else some []

mutual

/-- `_complete` from completions.py (lines 33-53): descend into the first
child whose span admits the offset; at the innermost node, collect the
trailing token window and run the node's completers in registration order.
`none` models an `IndexError` escaping the window-collection loop. -/
def _complete (lsp : LspState) : CompNode → List Token → Nat → Int →
    Option (List Completion)
  | CompNode.mk _ _ _ comps children, tokens, idx, tIdx =>
    match descendFirst lsp children tokens idx tIdx with
    | some r => r
    | none =>
      (collectPrev tokens tIdx).map (fun prev => comps.flatMap (fun f => f prev lsp))

/-- The `for child in ast_node.children` loop of `_complete`: the loop
recurses into the first child satisfying the descent condition and returns;
`none` means no child qualified. -/
def descendFirst (lsp : LspState) : List CompNode → List Token → Nat → Int →
    Option (Option (List Completion))
  | [], _, _, _ => none
  | c :: rest, tokens, idx, tIdx =>
    if containsIdx c idx then some (_complete lsp c tokens idx tIdx)
    else descendFirst lsp rest tokens idx tIdx

end

/-- The token-location loop of `complete` (completions.py lines 61-63): the
last index whose token satisfies `token.start < idx <= token.end`, defaulting
to 0. -/
def findTokenIdxAux (idx : Nat) : List Token → Nat → Nat → Nat
  | [], _, acc => acc
  | t :: rest, i, acc =>
    findTokenIdxAux idx rest (i + 1) (if t.start < idx ∧ idx ≤ t.stop then i else acc)

def findTokenIdx (tokens : List Token) (idx : Nat) : Nat :=
  findTokenIdxAux idx tokens 0 0

/-- The re-anchoring loop of `complete` (completions.py lines 66-68): while
the current token is an identifier or whitespace, move `idx` to that token's
start and step `token_idx` back.  Python's negative indexing applies when
`token_idx` drops below 0; running past `-len(tokens)` raises `IndexError`
(`none`). -/
def reanchorAux (tokens : List Token) (idx : Nat) (tIdx : Int) : Option (Nat × Int) :=
  match hg : pyGet tokens tIdx with
  | none => none
  | some t =>
    if t.type = TokenType.ident ∨ t.type = TokenType.whitespace then
      reanchorAux tokens t.start (tIdx - 1)
    else some (idx, tIdx)
termination_by (tIdx + tokens.length + 1).toNat
decreasing_by
  have := pyGet_some_bounds hg
  omega

/-- `complete` from completions.py (lines 56-70): locate the current token,
re-anchor past identifier/whitespace tokens, then resolve the innermost node
with `_complete`. -/
def complete (lsp : LspState) (node : CompNode) (tokens : List Token) (idx : Nat) :
    Option (List Completion) :=
  match reanchorAux tokens idx ((findTokenIdx tokens idx : Nat) : Int) with
  | none => none
  | some (idx2, tIdx2) => _complete lsp node tokens idx2 tIdx2

/-- The spec's wording of the descent rule, as a proposition: a child
qualifies when its span contains the offset, where an offset equal to the
span's end still qualifies only if the child is marked incomplete. -/
def spanQualifies (child : CompNode) (idx : Nat) : Prop :=
  child.start ≤ idx ∧ (idx < child.stop ∨ (idx = child.stop ∧ child.incomplete = true))

theorem containsIdx_iff_spanQualifies (c : CompNode) (idx : Nat) :
    containsIdx c idx = true ↔ spanQualifies c idx := by
  simp [containsIdx, spanQualifies]

mutual

/-- The innermost match of the completion resolver, written from the spec's
description: starting at the root, repeatedly descend into the first child
qualifying under the descent rule; stop at a node none of whose children
qualify. -/
def innermost : CompNode → Nat → CompNode
  | CompNode.mk s e inc comps children, idx =>
    match innermostChild children idx with
    | some n => n
    | none => CompNode.mk s e inc comps children

def innermostChild : List CompNode → Nat → Option CompNode
  | [], _ => none
  | c :: rest, idx =>
    if containsIdx c idx then some (innermost c idx) else innermostChild rest idx

end

theorem descendFirst_eq_find (lsp : LspState) (tokens : List Token) (idx : Nat) (tIdx : Int) :
    ∀ children : List CompNode,
      descendFirst lsp children tokens idx tIdx =
        (children.find? (fun c => containsIdx c idx)).map
          (fun c => _complete lsp c tokens idx tIdx)
  | [] => by simp [descendFirst]
  | c :: rest => by
    rw [descendFirst, List.find?]
    cases h : containsIdx c idx with
    | true => simp [h]
    | false => simp [h, descendFirst_eq_find lsp tokens idx tIdx rest]

theorem innermostChild_eq_find (idx : Nat) :
    ∀ children : List CompNode,
      innermostChild children idx =
        (children.find? (fun c => containsIdx c idx)).map (fun c => innermost c idx)
  | [] => by simp [innermostChild]
  | c :: rest => by
    rw [innermostChild, List.find?]
    cases h : containsIdx c idx with
    | true => simp [h]
    | false => simp [h, innermostChild_eq_find idx rest]

theorem _complete_eq_innermost_aux :
    ∀ n : Nat, ∀ node : CompNode, sizeOf node ≤ n →
      ∀ (lsp : LspState) (tokens : List Token) (idx : Nat) (tIdx : Int),
        _complete lsp node tokens idx tIdx =
          (collectPrev tokens tIdx).map
            (fun prev => (innermost node idx).completers.flatMap (fun f => f prev lsp)) := by
  intro n
  induction n with
  | zero =>
    intro node h
    cases node with
    | mk s e inc comps children =>
      simp [CompNode.mk.sizeOf_spec] at h
  | succ n ih =>
    intro node hle lsp tokens idx tIdx
    cases node with
    | mk s e inc comps children =>
      rw [_complete, innermost, descendFirst_eq_find, innermostChild_eq_find]
      cases hf : children.find? (fun c => containsIdx c idx) with
      | none => simp [CompNode.completers]
      | some c =>
        have hszc : sizeOf c ≤ n := by
          have hm := List.sizeOf_lt_of_mem (List.mem_of_find?_eq_some hf)
          have hs : sizeOf (CompNode.mk s e inc comps children) =
              1 + sizeOf s + sizeOf e + sizeOf inc + sizeOf comps + sizeOf children :=
            CompNode.mk.sizeOf_spec s e inc comps children
          omega
        simpa using ih c hszc lsp tokens idx tIdx

/-- C2: During completion resolution, at each AST level the resolver descends
into a child exactly when that child's span contains the (possibly
re-anchored) offset, where an offset equal to the child's span end still
qualifies only if that child is marked incomplete; if no child qualifies, the
current node is treated as the innermost match and its completers are
dispatched.  The first conjunct identifies the code's descent condition with
the spec's span rule; the second says the resolver descends into the first
qualifying child; the third says that with no qualifying child the current
node's own completers run on the trailing window. -/
theorem c2_descent_rule (lsp : LspState) (tokens : List Token) (idx : Nat) (tIdx : Int)
    (s e : Nat) (inc : Bool) (comps : List (List Token → LspState → List Completion))
    (children : List CompNode) :
    (∀ c : CompNode, containsIdx c idx = true ↔ spanQualifies c idx) ∧
    (∀ c : CompNode, children.find? (fun c => containsIdx c idx) = some c →
      spanQualifies c idx ∧
        _complete lsp (CompNode.mk s e inc comps children) tokens idx tIdx =
          _complete lsp c tokens idx tIdx) ∧
    ((∀ c ∈ children, ¬ spanQualifies c idx) →
      _complete lsp (CompNode.mk s e inc comps children) tokens idx tIdx =
        (collectPrev tokens tIdx).map (fun prev => comps.flatMap (fun f => f prev lsp))) := by
  refine ⟨fun c => containsIdx_iff_spanQualifies c idx, fun c hc => ?_, fun h => ?_⟩
  · have hb : containsIdx c idx = true := by simpa using List.find?_some hc
    refine ⟨(containsIdx_iff_spanQualifies c idx).mp hb, ?_⟩
    rw [_complete, descendFirst_eq_find, hc]
    rfl
  · have hn : children.find? (fun x => containsIdx x idx) = none :=
      List.find?_eq_none.mpr fun x hx hb =>
        h x hx ((containsIdx_iff_spanQualifies x idx).mp hb)
    rw [_complete, descendFirst_eq_find, hn]
    rfl

/-- Witness for `c2_descent_rule`: a concrete two-level tree in which the
offset 3 falls inside the single child's span, so the resolver descends. -/
theorem c2_descent_rule_witness :
    spanQualifies (CompNode.mk 2 4 false [] []) 3 ∧
      _complete ⟨true⟩ (CompNode.mk 0 10 false [] [CompNode.mk 2 4 false [] []]) [] 3 (-1) =
        _complete ⟨true⟩ (CompNode.mk 2 4 false [] []) [] 3 (-1) :=
  (c2_descent_rule ⟨true⟩ [] 3 (-1) 0 10 false [] [CompNode.mk 2 4 false [] []]).2.1
    (CompNode.mk 2 4 false [] [])
    (by simp [List.find?, containsIdx, CompNode.start, CompNode.stop])

/-- C9: For every completion request, all yielded suggestions come from the
completers registered on a single AST node — the innermost match: the
resolver's output is exactly the concatenation of that node's completers
applied to the trailing token window, so completers of ancestors are never
consulted. -/
theorem c9_innermost_node_only
    (lsp : LspState) (node : CompNode) (tokens : List Token) (idx : Nat) (tIdx : Int) :
    _complete lsp node tokens idx tIdx =
      (collectPrev tokens tIdx).map
        (fun prev => (innermost node idx).completers.flatMap (fun f => f prev lsp)) :=
  _complete_eq_innermost_aux (sizeOf node) node (Nat.le_refl _) lsp tokens idx tIdx

/-- The non-skipped prefix of the token stream up to (excluding) index `n`:
the tokens a full window would be drawn from. -/
def filteredPrefix (tokens : List Token) (n : Nat) : List Token :=
  (tokens.take n).filter (fun t => !decide (t.type ∈ SKIP_TOKENS))

theorem suffix_append_both {α : Type} {l₁ l₂ : List α} (h : l₁ <:+ l₂) (l₃ : List α) :
    l₁ ++ l₃ <:+ l₂ ++ l₃ := by
  obtain ⟨s, rfl⟩ := h
  exact ⟨s, by simp⟩

theorem filteredPrefix_succ (tokens : List Token) (n : Nat) (t : Token)
    (hg : tokens.get? n = some t) :
    filteredPrefix tokens (n + 1) =
      filteredPrefix tokens n ++ (if t.type ∈ SKIP_TOKENS then [] else [t]) := by
  have hg2 : tokens[n]? = some t := by
    rw [← List.get?_eq_getElem?]
    exact hg
  unfold filteredPrefix
  rw [List.take_succ, hg2]
  by_cases hskip : t.type ∈ SKIP_TOKENS <;>
    simp [hskip, List.filter_append]

theorem collectPrevGo_spec (tokens : List Token) :
    ∀ (n : Nat) (acc l : List Token), collectPrevGo tokens n acc = some l →
      ∃ m : List Token, l = m ++ acc ∧
        m <:+ filteredPrefix tokens (n + 1) ∧
        (acc.length ≤ 5 → l.length ≤ 5) ∧
        (l.length < 5 → m = filteredPrefix tokens (n + 1)) ∧
        (∀ t ∈ m, ¬ t.type ∈ SKIP_TOKENS) := by
  intro n
  induction n with
  | zero =>
    intro acc l h
    rw [collectPrevGo] at h
    split at h
    · rename_i hacc
      split at h
      · cases h
      · rename_i t hg
        have hfp : filteredPrefix tokens (0 + 1) =
            [] ++ (if t.type ∈ SKIP_TOKENS then [] else [t]) := by
          rw [filteredPrefix_succ tokens 0 t hg]
          simp [filteredPrefix]
        simp only [Nat.zero_add, List.nil_append] at hfp
        injection h with h'
        by_cases hskip : t.type ∈ SKIP_TOKENS
        · have hl : l = acc := by simpa [hskip] using h'.symm
          refine ⟨[], by simp [hl], by simp, ?_, ?_, by simp⟩
          · intro _
            rw [hl]
            omega
          · intro _
            simp [hfp, hskip]
        · have hl : l = t :: acc := by simpa [hskip] using h'.symm
          refine ⟨[t], by simp [hl], ?_, ?_, ?_, by simpa using hskip⟩
          · simp [hfp, hskip]
          · intro _
            subst hl
            simp
            omega
          · intro _
            simp [hfp, hskip]
    · rename_i hacc
      injection h with h'
      refine ⟨[], by simp [h'.symm], ⟨filteredPrefix tokens 1, by simp⟩, ?_, ?_, by simp⟩
      · intro hle
        subst h'
        omega
      · intro hlt
        subst h'
        omega
  | succ n ih =>
    intro acc l h
    rw [collectPrevGo] at h
    split at h
    · rename_i hacc
      split at h
      · cases h
      · rename_i t hg
        have hfp := filteredPrefix_succ tokens (n + 1) t hg
        by_cases hskip : t.type ∈ SKIP_TOKENS
        · rw [if_pos hskip] at h
          obtain ⟨m, hm1, hm2, hm3, hm4, hm5⟩ := ih acc l h
          refine ⟨m, hm1, ?_, hm3, ?_, hm5⟩
          · rw [hfp, if_pos hskip]
            simpa using hm2
          · intro hlt
            rw [hfp, if_pos hskip]
            simpa using hm4 hlt
        · rw [if_neg hskip] at h
          obtain ⟨m, hm1, hm2, hm3, hm4, hm5⟩ := ih (t :: acc) l h
          refine ⟨m ++ [t], by simp [hm1], ?_, ?_, ?_, ?_⟩
          · rw [hfp, if_neg hskip]
            exact suffix_append_both hm2 [t]
          · intro _
            apply hm3
            simp
            omega
          · intro hlt
            rw [hfp, if_neg hskip, hm4 hlt]
          · intro tp htp
            rcases List.mem_append.mp htp with h1 | h2
            · exact hm5 tp h1
            · rw [List.mem_singleton.mp h2]
              exact hskip
    · rename_i hacc
      injection h with h'
      refine ⟨[], by simp [h'.symm], ⟨filteredPrefix tokens (n + 2), by simp⟩, ?_, ?_, by simp⟩
      · intro hle
        subst h'
        omega
      · intro hlt
        subst h'
        omega

/-- A concrete token stream used to instantiate theorems: `((`, two spaces,
`name`, `:`, covering offsets 0-9 without gaps. -/
def sampleTokens : List Token :=
  [⟨TokenType.op, 0, 2, "(("⟩, ⟨TokenType.whitespace, 2, 4, "  "⟩,
   ⟨TokenType.ident, 4, 8, "name"⟩, ⟨TokenType.op, 8, 9, ":"⟩]

/-- C4: For every completion request, the trailing context window handed to
completers contains at most 5 tokens, contains no token of a skippable
category (whitespace, comments), and consists of the tokens immediately
preceding the anchored position in source order: the window is a suffix of
the non-skipped tokens at indices up to the anchor index, and is all of them
whenever fewer than 5 exist. -/
theorem c4_trailing_window (tokens : List Token) (tIdx : Int) (l : List Token)
    (h : collectPrev tokens tIdx = some l) :
    l.length ≤ 5 ∧
    (∀ t ∈ l, ¬ t.type ∈ SKIP_TOKENS) ∧
    l <:+ filteredPrefix tokens (tIdx + 1).toNat ∧
    (l.length < 5 → l = filteredPrefix tokens (tIdx + 1).toNat) := by
  unfold collectPrev at h
  split at h
  · rename_i hge
    obtain ⟨m, hm1, hm2, hm3, hm4, hm5⟩ := collectPrevGo_spec tokens tIdx.toNat [] l h
    have hn : tIdx.toNat + 1 = (tIdx + 1).toNat := by omega
    rw [hn] at hm2 hm4
    simp only [List.append_nil] at hm1
    subst hm1
    exact ⟨hm3 (by simp), hm5, hm2, hm4⟩
  · rename_i hneg
    injection h with h'
    have h0 : (tIdx + 1).toNat = 0 := by omega
    rw [h0]
    refine ⟨by simp [h'.symm], by simp [h'.symm], ?_, ?_⟩
    · rw [← h']
      simp [filteredPrefix]
    · intro _
      rw [← h']
      simp [filteredPrefix]

/-- Witness for `c4_trailing_window`: the window collected from
`sampleTokens` anchored at index 3 is the three non-skipped tokens in source
order. -/
theorem c4_trailing_window_witness :
    ([⟨TokenType.op, 0, 2, "(("⟩, ⟨TokenType.ident, 4, 8, "name"⟩,
        ⟨TokenType.op, 8, 9, ":"⟩] : List Token).length ≤ 5 ∧
    (∀ t ∈ ([⟨TokenType.op, 0, 2, "(("⟩, ⟨TokenType.ident, 4, 8, "name"⟩,
        ⟨TokenType.op, 8, 9, ":"⟩] : List Token), ¬ t.type ∈ SKIP_TOKENS) ∧
    ([⟨TokenType.op, 0, 2, "(("⟩, ⟨TokenType.ident, 4, 8, "name"⟩,
        ⟨TokenType.op, 8, 9, ":"⟩] : List Token) <:+
      filteredPrefix sampleTokens ((3 : Int) + 1).toNat ∧
    (([⟨TokenType.op, 0, 2, "(("⟩, ⟨TokenType.ident, 4, 8, "name"⟩,
        ⟨TokenType.op, 8, 9, ":"⟩] : List Token).length < 5 →
      ([⟨TokenType.op, 0, 2, "(("⟩, ⟨TokenType.ident, 4, 8, "name"⟩,
        ⟨TokenType.op, 8, 9, ":"⟩] : List Token) =
        filteredPrefix sampleTokens ((3 : Int) + 1).toNat) :=
  c4_trailing_window sampleTokens 3
    [⟨TokenType.op, 0, 2, "(("⟩, ⟨TokenType.ident, 4, 8, "name"⟩, ⟨TokenType.op, 8, 9, ":"⟩]
    (by simp [collectPrev, collectPrevGo, sampleTokens, SKIP_TOKENS])

theorem reanchorAux_none (tokens : List Token) (idx : Nat) (tIdx : Int)
    (h : pyGet tokens tIdx = none) : reanchorAux tokens idx tIdx = none := by
  rw [reanchorAux]
  split
  · rfl
  · rename_i t heq
    rw [h] at heq
    cases heq

theorem reanchorAux_step (tokens : List Token) (idx : Nat) (tIdx : Int) (t : Token)
    (h : pyGet tokens tIdx = some t) :
    reanchorAux tokens idx tIdx =
      if t.type = TokenType.ident ∨ t.type = TokenType.whitespace then
        reanchorAux tokens t.start (tIdx - 1)
      else some (idx, tIdx) := by
  rw [reanchorAux]
  split
  · rename_i heq
    rw [h] at heq
    cases heq
  · rename_i t' heq
    rw [h] at heq
    injection heq with heq'
    subst heq'
    rfl

theorem findTokenIdxAux_spec (idx : Nat) :
    ∀ (l : List Token) (i acc : Nat),
      ((∀ k t, l.get? k = some t → ¬(t.start < idx ∧ idx ≤ t.stop)) →
        findTokenIdxAux idx l i acc = acc) ∧
      (∀ k t, l.get? k = some t → (t.start < idx ∧ idx ≤ t.stop) →
        ∃ k' t', l.get? k' = some t' ∧ (t'.start < idx ∧ idx ≤ t'.stop) ∧
          findTokenIdxAux idx l i acc = i + k' ∧
          (∀ j u, l.get? j = some u → (u.start < idx ∧ idx ≤ u.stop) → j ≤ k')) := by
  intro l
  induction l with
  | nil =>
    intro i acc
    constructor
    · intro _
      rfl
    · intro k t hk
      simp at hk
  | cons t rest ih =>
    intro i acc
    constructor
    · intro hno
      rw [findTokenIdxAux]
      have hnt : ¬(t.start < idx ∧ idx ≤ t.stop) := hno 0 t rfl
      rw [if_neg hnt]
      exact (ih (i + 1) acc).1 (fun k u hk => hno (k + 1) u (by simpa using hk))
    · intro k tk hk hpk
      by_cases hrest : ∃ kr tr, rest.get? kr = some tr ∧ (tr.start < idx ∧ idx ≤ tr.stop)
      · obtain ⟨k0, t0, hk0, hp0⟩ := hrest
        obtain ⟨k', t', h1, h2, h3, h4⟩ :=
          (ih (i + 1) (if t.start < idx ∧ idx ≤ t.stop then i else acc)).2 k0 t0 hk0 hp0
        refine ⟨k' + 1, t', by simpa using h1, h2, ?_, ?_⟩
        · rw [findTokenIdxAux, h3]
          omega
        · intro j u hj hpj
          cases j with
          | zero => omega
          | succ j' =>
            have := h4 j' u (by simpa using hj) hpj
            omega
      · have hrest' : ∀ kr tr, rest.get? kr = some tr → ¬(tr.start < idx ∧ idx ≤ tr.stop) :=
          fun kr tr hkr hpr => hrest ⟨kr, tr, hkr, hpr⟩
        have hk0 : k = 0 ∧ t = tk := by
          cases k with
          | zero => exact ⟨rfl, by simpa using hk⟩
          | succ k' => exact absurd hpk (hrest' k' tk (by simpa using hk))
        obtain ⟨hke, hte⟩ := hk0
        subst hke
        subst hte
        refine ⟨0, t, rfl, hpk, ?_, ?_⟩
        · rw [findTokenIdxAux, if_pos hpk, (ih (i + 1) i).1 hrest']
          omega
        · intro j u hj hpj
          cases j with
          | zero => omega
          | succ j' => exact absurd hpj (hrest' j' u (by simpa using hj))

theorem reanchorAux_spec (tokens : List Token) :
    ∀ (gas : Nat) (tIdx : Int), (tIdx + tokens.length + 1).toNat ≤ gas →
      ∀ (idx idx' : Nat) (tIdx' : Int),
        reanchorAux tokens idx tIdx = some (idx', tIdx') →
        (∃ t, pyGet tokens tIdx' = some t ∧ t.type ≠ TokenType.ident ∧
          t.type ≠ TokenType.whitespace) ∧
        tIdx' ≤ tIdx ∧
        ((tIdx' = tIdx ∧ idx' = idx) ∨
          (tIdx' < tIdx ∧
            (∃ t1, pyGet tokens (tIdx' + 1) = some t1 ∧
              (t1.type = TokenType.ident ∨ t1.type = TokenType.whitespace) ∧
              idx' = t1.start) ∧
            ∀ k : Int, tIdx' < k → k ≤ tIdx →
              ∃ tk, pyGet tokens k = some tk ∧
                (tk.type = TokenType.ident ∨ tk.type = TokenType.whitespace))) := by
  intro gas
  induction gas with
  | zero =>
    intro tIdx hg idx idx' tIdx' h
    have hlow : tIdx < -(tokens.length : Int) := by omega
    have hnone : pyGet tokens tIdx = none := by
      unfold pyGet
      rw [if_neg (by omega), if_neg (by omega)]
    rw [reanchorAux_none tokens idx tIdx hnone] at h
    cases h
  | succ gas ih =>
    intro tIdx hg idx idx' tIdx' h
    cases hpg : pyGet tokens tIdx with
    | none =>
      rw [reanchorAux_none tokens idx tIdx hpg] at h
      cases h
    | some t =>
      rw [reanchorAux_step tokens idx tIdx t hpg] at h
      by_cases htriv : t.type = TokenType.ident ∨ t.type = TokenType.whitespace
      · rw [if_pos htriv] at h
        have hb := pyGet_some_bounds hpg
        have hgas : (tIdx - 1 + tokens.length + 1).toNat ≤ gas := by omega
        obtain ⟨hc1, hc2, hc3⟩ := ih (tIdx - 1) hgas t.start idx' tIdx' h
        refine ⟨hc1, by omega, ?_⟩
        rcases hc3 with ⟨heq, hidx⟩ | ⟨hlt, ⟨t1, ht1a, ht1b, ht1c⟩, hall⟩
        · right
          have hsucc : tIdx' + 1 = tIdx := by omega
          refine ⟨by omega, ⟨t, by rw [hsucc]; exact hpg, htriv, hidx⟩, ?_⟩
          intro k hk1 hk2
          have hke : k = tIdx := by omega
          subst hke
          exact ⟨t, hpg, htriv⟩
        · right
          refine ⟨by omega, ⟨t1, ht1a, ht1b, ht1c⟩, ?_⟩
          intro k hk1 hk2
          by_cases hke : k = tIdx
          · subst hke
            exact ⟨t, hpg, htriv⟩
          · exact hall k hk1 (by omega)
      · rw [if_neg htriv] at h
        simp only [Option.some.injEq, Prod.mk.injEq] at h
        obtain ⟨h1, h2⟩ := h
        subst h1
        subst h2
        push_neg at htriv
        exact ⟨⟨t, hpg, htriv.1, htriv.2⟩, le_refl _, Or.inl ⟨rfl, rfl⟩⟩

theorem reanchor_sample_eval : reanchorAux sampleTokens 6 2 = some (2, 0) := by
  rw [reanchorAux_step sampleTokens 6 2 ⟨TokenType.ident, 4, 8, "name"⟩ (by decide)]
  rw [if_pos (by simp)]
  norm_num
  rw [reanchorAux_step sampleTokens 4 1 ⟨TokenType.whitespace, 2, 4, "  "⟩ (by decide)]
  rw [if_pos (by simp)]
  norm_num
  rw [reanchorAux_step sampleTokens 2 0 ⟨TokenType.op, 0, 2, "(("⟩ (by decide)]
  rw [if_neg (by simp)]

theorem findTokenIdx_sample_eval : findTokenIdx sampleTokens 6 = 2 := by decide

/-- Counterexample for C3: on `sampleTokens` (operator at 0-2, whitespace at
2-4, identifier at 4-8, operator at 8-9) with cursor offset 6, `complete`'s
anchoring locates token index 2 (the identifier containing 6), steps back to
the non-trivial token at index 0, but re-anchors the offset at 2 — the start
of the earliest skipped trivial token — which is neither the start (0) of the
prior non-trivial token it stepped back to nor the start (4) of the located
token, so the claim's "re-anchors the offset at its start" fails on either
reading. -/
theorem c3_counterexample :
    findTokenIdx sampleTokens 6 = 2 ∧
    reanchorAux sampleTokens 6 ((findTokenIdx sampleTokens 6 : Nat) : Int) = some (2, 0) ∧
    pyGet sampleTokens 0 = some ⟨TokenType.op, 0, 2, "(("⟩ ∧
    sampleTokens.get? 2 = some ⟨TokenType.ident, 4, 8, "name"⟩ ∧
    (2 : Nat) ≠ (⟨TokenType.op, 0, 2, "(("⟩ : Token).start ∧
    (2 : Nat) ≠ (⟨TokenType.ident, 4, 8, "name"⟩ : Token).start ∧
    complete ⟨true⟩ (CompNode.mk 0 9 false [] []) sampleTokens 6 =
      _complete ⟨true⟩ (CompNode.mk 0 9 false [] []) sampleTokens 2 0 := by
  have hre : reanchorAux sampleTokens 6 ((findTokenIdx sampleTokens 6 : Nat) : Int) =
      some (2, 0) := by
    rw [findTokenIdx_sample_eval]
    exact_mod_cast reanchor_sample_eval
  refine ⟨findTokenIdx_sample_eval, hre, by decide, by decide, by decide, by decide, ?_⟩
  unfold complete
  rw [hre]

/-- C3 (amended): for every token stream and cursor offset, `complete` first
locates the token whose span contains the offset — the last index `k` with
`start < offset ≤ end`, which on a boundary is the token immediately
preceding it — and then, while the current token is an identifier or
whitespace, steps backward, ending on the nearest preceding non-trivial
token; the offset is re-anchored at the start of the earliest skipped
identifier/whitespace token (equivalently, at the end of that non-trivial
token in a gap-free stream) — not at the non-trivial token's own start — and
if nothing is skipped the offset is unchanged; the innermost node is then
resolved at the re-anchored position. -/
theorem c3_amended_anchor (tokens : List Token) (idx : Nat) :
    (∀ k t, tokens.get? k = some t → (t.start < idx ∧ idx ≤ t.stop) →
      ∃ k' t', tokens.get? k' = some t' ∧ (t'.start < idx ∧ idx ≤ t'.stop) ∧
        findTokenIdx tokens idx = k' ∧
        (∀ j u, tokens.get? j = some u → (u.start < idx ∧ idx ≤ u.stop) → j ≤ k')) ∧
    (∀ (idx' : Nat) (tIdx' : Int),
      reanchorAux tokens idx ((findTokenIdx tokens idx : Nat) : Int) = some (idx', tIdx') →
      (∃ t, pyGet tokens tIdx' = some t ∧ t.type ≠ TokenType.ident ∧
        t.type ≠ TokenType.whitespace) ∧
      ((tIdx' = ((findTokenIdx tokens idx : Nat) : Int) ∧ idx' = idx) ∨
        (tIdx' < ((findTokenIdx tokens idx : Nat) : Int) ∧
          (∃ t1, pyGet tokens (tIdx' + 1) = some t1 ∧
            (t1.type = TokenType.ident ∨ t1.type = TokenType.whitespace) ∧
            idx' = t1.start) ∧
          ∀ k : Int, tIdx' < k → k ≤ ((findTokenIdx tokens idx : Nat) : Int) →
            ∃ tk, pyGet tokens k = some tk ∧
              (tk.type = TokenType.ident ∨ tk.type = TokenType.whitespace)))) ∧
    (∀ (lsp : LspState) (node : CompNode) (idx' : Nat) (tIdx' : Int),
      reanchorAux tokens idx ((findTokenIdx tokens idx : Nat) : Int) = some (idx', tIdx') →
      complete lsp node tokens idx = _complete lsp node tokens idx' tIdx') := by
  refine ⟨?_, ?_, ?_⟩
  · intro k t hk hp
    obtain ⟨k', t', h1, h2, h3, h4⟩ := (findTokenIdxAux_spec idx tokens 0 0).2 k t hk hp
    refine ⟨k', t', h1, h2, ?_, h4⟩
    unfold findTokenIdx
    omega
  · intro idx' tIdx' h
    obtain ⟨hc1, hc2, hc3⟩ :=
      reanchorAux_spec tokens
        ((((findTokenIdx tokens idx : Nat) : Int) + tokens.length + 1).toNat)
        ((findTokenIdx tokens idx : Nat) : Int) (Nat.le_refl _) idx idx' tIdx' h
    exact ⟨hc1, hc3⟩
  · intro lsp node idx' tIdx' h
    unfold complete
    rw [h]

/-- Witness for `c3_amended_anchor`: instantiated on `sampleTokens` at cursor
offset 6, where the anchoring ends on the non-trivial operator token at index
0 with the offset re-anchored to 2. -/
theorem c3_amended_anchor_witness :
    (∃ t, pyGet sampleTokens 0 = some t ∧ t.type ≠ TokenType.ident ∧
      t.type ≠ TokenType.whitespace) ∧
    complete ⟨true⟩ (CompNode.mk 0 9 true [] []) sampleTokens 6 =
      _complete ⟨true⟩ (CompNode.mk 0 9 true [] []) sampleTokens 2 0 := by
  have hre : reanchorAux sampleTokens 6 ((findTokenIdx sampleTokens 6 : Nat) : Int) =
      some (2, 0) := by
    rw [findTokenIdx_sample_eval]
    exact_mod_cast reanchor_sample_eval
  exact ⟨((c3_amended_anchor sampleTokens 6).2.1 2 0 hre).1,
    (c3_amended_anchor sampleTokens 6).2.2 ⟨true⟩ (CompNode.mk 0 9 true [] []) 2 0 hre⟩

/-- A compile diagnostic as `errors.CompileError` carries it at the parse
boundary (errors.py is not in src/): just its message, which is all `parse`'s
error plumbing moves around. -/
structure CompileErr where
  message : String
  deriving DecidableEq, Repr

/-- Modelled from the spec: `errors.MultipleErrors` (not in src/), an
exception bundling an ordered list of fatal errors. -/
structure MultipleErrors where
  errors : List CompileErr
  deriving DecidableEq, Repr

/-- Modelled from the spec: the exceptions that can cross `parse`'s try
block: `MultipleErrors`, a single `CompileError`, or any other exception. -/
inductive PyExn where
  | multipleErrors (e : MultipleErrors)
  | compileError (e : CompileErr)
  | other (msg : String)
  deriving DecidableEq, Repr

/-- Modelled from the spec: the root AST node produced by a successful parse
(`language.UI`, not in src/); its internal structure is irrelevant to the
parse contract, which only passes it through. -/
structure UI where
  rootId : Nat
  deriving DecidableEq, Repr

/-- Modelled from the spec: what the grammar engine underneath `parse`
produces on success — the root group turned into an AST node, plus the errors
and warnings collected in the `ParseContext` and on the AST node
(parse_tree.py and the grammar are not in src/). -/
structure ParseSuccess where
  ast : UI
  ctx_errors : List CompileErr
  ast_errors : List CompileErr
  ctx_warnings : List CompileErr
  ast_warnings : List CompileErr
  deriving DecidableEq, Repr

/-- The result type of `parse`: root AST node or none, fatal-error collection
or none, list of warnings. -/
abbrev ParseResult := Option UI × Option MultipleErrors × List CompileErr

/-- The try-block body of `parse` (parser.py lines 32-43), parametrised by
the grammar engine: run the engine, collect context and AST errors and
warnings, and wrap the errors in `MultipleErrors` when any exist. -/
def parseImpl (engine : List Token → Except PyExn ParseSuccess)
    (tokens : List Token) : Except PyExn ParseResult :=
  match engine tokens with
  | Except.error e => Except.error e
  | Except.ok r =>
    let errors := r.ctx_errors ++ r.ast_errors
    let warnings := r.ctx_warnings ++ r.ast_warnings
    Except.ok (some r.ast,
      if errors.length ≠ 0 then some ⟨errors⟩ else none,
      warnings)

/-- `parse` from parser.py (lines 27-47): the try-block body guarded by the
two `except` clauses — a raised `MultipleErrors` yields `(None, e, [])`, a
raised `CompileError` yields `(None, MultipleErrors([e]), [])`; any other
exception would propagate past the boundary. -/
def parse (engine : List Token → Except PyExn ParseSuccess)
    (tokens : List Token) : Except PyExn ParseResult :=
  match parseImpl engine tokens with
  | Except.ok t => Except.ok t
  | Except.error (PyExn.multipleErrors e) => Except.ok (none, some e, [])
  | Except.error (PyExn.compileError e) => Except.ok (none, some ⟨[e]⟩, [])
  | Except.error (PyExn.other m) => Except.error (PyExn.other m)

/-- Modelled from the spec: the grammar engine's contract — parsing always
yields a root group plus recoverable diagnostics, except that catastrophic
input (the empty token stream) raises a single top-level `CompileError`; the
engine raises only `MultipleErrors` or `CompileError`.  A minimal concrete
instance of that contract, used to instantiate the parse theorems. -/
def specEngine (tokens : List Token) : Except PyExn ParseSuccess :=
  if tokens.isEmpty then Except.error (PyExn.compileError ⟨"Could not parse input"⟩)
  else Except.ok ⟨⟨0⟩, [], [], [], []⟩

/-- C1: for every list of tokens, `parse` returns a triple (root AST node or
none, fatal-error collection or none, list of warnings) and never lets an
exception escape its public boundary, given the spec's contract that the
engine under its try block raises only `MultipleErrors` or `CompileError`;
in particular on catastrophic input — the empty token stream, where the
engine raises a single top-level `CompileError` — it returns no tree together
with a single top-level error and no warnings, rather than crashing. -/
theorem c1_parse_total (engine : List Token → Except PyExn ParseSuccess)
    (hno : ∀ ts m, engine ts ≠ Except.error (PyExn.other m))
    (e : CompileErr)
    (hempty : engine [] = Except.error (PyExn.compileError e)) :
    (∀ ts, ∃ r : ParseResult, parse engine ts = Except.ok r) ∧
    parse engine [] = Except.ok (none, some ⟨[e]⟩, []) := by
  constructor
  · intro ts
    unfold parse parseImpl
    cases he : engine ts with
    | ok r => exact ⟨_, rfl⟩
    | error ex =>
      cases ex with
      | multipleErrors me => exact ⟨_, rfl⟩
      | compileError ce => exact ⟨_, rfl⟩
      | other m => exact absurd he (hno ts m)
  · unfold parse parseImpl
    rw [hempty]

/-- Witness for `c1_parse_total`: under the modelled engine, parsing the
empty token stream returns no tree and the single top-level error. -/
theorem c1_parse_total_witness :
    parse specEngine [] = Except.ok (none, some ⟨[⟨"Could not parse input"⟩]⟩, []) :=
  (c1_parse_total specEngine
    (by
      intro ts m
      unfold specEngine
      split <;> simp)
    ⟨"Could not parse input"⟩ rfl).2

/-- Modelled from the spec: the value-kind classification of the Type Catalog
(gir.py is not in src/) as the completers consult it: boolean, string,
enumeration with its ordered member names, or any other type identified by
its full name. -/
inductive GirType where
  | boolType
  | stringType
  | enumeration (members : List String)
  | otherType (full_name_str : String)
  deriving DecidableEq, Repr

def GirType.isBool : GirType → Bool
  | .boolType => true
  | _ => false

def GirType.isString : GirType → Bool
  | .stringType => true
  | _ => false

def GirType.isEnumeration : GirType → Bool
  | .enumeration _ => true
  | _ => false

def GirType.members : GirType → List String
  | .enumeration ms => ms
  | _ => []

/-- `full_name` as `property_completer` reads it.  Only the fallback branch
after the boolean/string/enumeration checks inspects it, so its value on
those kinds never matters; gir.py names them "bool", "string", and the
enumeration's qualified name. -/
def GirType.full_name : GirType → String
  | .boolType => "bool"
  | .stringType => "string"
  | .enumeration _ => "enum"
  | .otherType s => s

/-- Modelled from the spec: a property of a class in the Type Catalog, with
the fields `property_completer` reads — its name (the dict key), value type,
whether the translatable annotation is set
(`annotations.is_property_translated`), and its documentation strings. -/
structure Property where
  name : String
  type : GirType
  translated : Bool
  doc : Option String
  detail : Option String
  deriving DecidableEq, Repr

/-- Modelled from the spec: a signal of a class in the Type Catalog, with the
fields `signal_completer` reads. -/
structure Signal where
  name : String
  doc : Option String
  detail : Option String
  deriving DecidableEq, Repr

/-- The body of `property_completer`'s per-property loop (completions.py
lines 138-197), translated branch for branch; literal `{` and `}` in the
snippet strings are written `\x7b`/`\x7d`. -/
def propertyCompletion (lsp : LspState) (prop : Property) : Completion :=
  if prop.type.isBool && lsp.client_supports_completion_choice then
    { label := prop.name, kind := CompletionItemKind.property,
      sort_text := some ("0 " ++ prop.name),
      snippet := some (prop.name ++ ": $\x7b1|true,false|\x7d;"),
      docs := prop.doc, detail := prop.detail }
  else if prop.type.isString then
    { label := prop.name, kind := CompletionItemKind.property,
      sort_text := some ("0 " ++ prop.name),
      snippet := some (if prop.translated then prop.name ++ ": _(\"$0\");"
        else prop.name ++ ": \"$0\";"),
      docs := prop.doc, detail := prop.detail }
  else if prop.type.isEnumeration && decide (prop.type.members.length ≤ 10) &&
      lsp.client_supports_completion_choice then
    { label := prop.name, kind := CompletionItemKind.property,
      sort_text := some ("0 " ++ prop.name),
      snippet := some (prop.name ++ ": $\x7b1|" ++
        String.intercalate "," prop.type.members ++ "|\x7d;"),
      docs := prop.doc, detail := prop.detail }
  else if prop.type.full_name = "Gtk.Expression" then
    { label := prop.name, kind := CompletionItemKind.property,
      sort_text := some ("0 " ++ prop.name),
      snippet := some (prop.name ++ ": expr $0;"),
      docs := prop.doc, detail := prop.detail }
  else
    { label := prop.name, kind := CompletionItemKind.property,
      sort_text := some ("0 " ++ prop.name),
      snippet := some (prop.name ++ ": $0;"),
      docs := prop.doc, detail := prop.detail }

/-- `property_completer` from completions.py (lines 132-197): one suggestion
per property of the node's resolved class; `none` models a node whose
`gir_class` is unset or lacks a `properties` attribute, for which the guard
yields nothing. -/
def property_completer (lsp : LspState) (girProperties : Option (List Property)) :
    List Completion :=
  match girProperties with
  | none => []
  | some props => props.map (propertyCompletion lsp)

/-- The object information `signal_completer` reads from `ast_node.parent`
when the parent is an Object: the optional `id` token and the class name of
its `ClassName` child. -/
structure ObjectInfo where
  id : Option String
  class_name : String
  deriving DecidableEq, Repr

/-- The handler-name heuristic of `signal_completer` (completions.py lines
227-235): "on" when the parent is not an Object, otherwise "on_" followed by
the object's id, falling back to its lower-cased class name. -/
def handlerName (parent : Option ObjectInfo) : String :=
  match parent with
  | none => "on"
  | some o =>
    "on_" ++ (match o.id with
      | some i => i
      | none => o.class_name.toLower)

/-- The body of `signal_completer`'s per-signal loop (completions.py lines
236-243); the f-string's braces are written `\x7b`/`\x7d`. -/
def signalCompletion (parent : Option ObjectInfo) (sig : Signal) : Completion :=
  { label := sig.name, kind := CompletionItemKind.event,
    sort_text := some ("1 " ++ sig.name),
    snippet := some (sig.name ++ " => \\$$\x7b1:$" ++ handlerName parent ++ "_" ++
      (sig.name.replace "-" "_") ++ "\x7d()$0;"),
    docs := sig.doc, detail := sig.detail }

/-- `signal_completer` from completions.py (lines 220-243): one suggestion
per signal of the node's resolved class; `none` models a node whose
`gir_class` is unset or lacks a `signals` attribute. -/
def signal_completer (lsp : LspState) (girSignals : Option (List Signal))
    (parent : Option ObjectInfo) : List Completion :=
  match lsp, girSignals with
  | _, none => []
  | _, some sigs => sigs.map (signalCompletion parent)

theorem propertyCompletion_sort_text (lsp : LspState) (prop : Property) :
    (propertyCompletion lsp prop).sort_text = some ("0 " ++ prop.name) := by
  unfold propertyCompletion
  split_ifs <;> rfl

theorem signalCompletion_sort_text (parent : Option ObjectInfo) (sig : Signal) :
    (signalCompletion parent sig).sort_text = some ("1 " ++ sig.name) := rfl

theorem string_append_lt_of_head_lt (r₁ r₂ : String) : ("0 " ++ r₁) < ("1 " ++ r₂) := by
  rw [String.lt_iff_toList_lt]
  have h1 : ("0 " ++ r₁).toList = '0' :: ' ' :: r₁.toList := by
    simp [String.toList, String.data_append]
  have h2 : ("1 " ++ r₂).toList = '1' :: ' ' :: r₂.toList := by
    simp [String.toList, String.data_append]
  rw [h1, h2]
  exact Batteries.compareOfLessAndEq_eq_lt.mp rfl

/-- C5: for a property of boolean kind, `property_completer`'s suggestion has
as insertable snippet the two-choice picker between the literal values true
and false when the client capability flag for choice completions is set, and
the empty value placeholder snippet when the flag is unset. -/
theorem c5_bool_property_snippet (lsp : LspState) (prop : Property)
    (hb : prop.type = GirType.boolType) :
    (lsp.client_supports_completion_choice = true →
      (propertyCompletion lsp prop).snippet =
        some (prop.name ++ ": $\x7b1|true,false|\x7d;")) ∧
    (lsp.client_supports_completion_choice = false →
      (propertyCompletion lsp prop).snippet = some (prop.name ++ ": $0;")) := by
  constructor <;> intro hc <;>
    simp [propertyCompletion, hb, hc, GirType.isBool, GirType.isString,
      GirType.isEnumeration, GirType.full_name]

/-- Witness for `c5_bool_property_snippet`: the boolean property `visible`
with and without the choice-completion capability. -/
theorem c5_bool_property_snippet_witness :
    (propertyCompletion ⟨true⟩ ⟨"visible", GirType.boolType, false, none, none⟩).snippet =
      some ("visible" ++ ": $\x7b1|true,false|\x7d;") ∧
    (propertyCompletion ⟨false⟩ ⟨"visible", GirType.boolType, false, none, none⟩).snippet =
      some ("visible" ++ ": $0;") :=
  ⟨(c5_bool_property_snippet ⟨true⟩ ⟨"visible", GirType.boolType, false, none, none⟩ rfl).1 rfl,
   (c5_bool_property_snippet ⟨false⟩ ⟨"visible", GirType.boolType, false, none, none⟩ rfl).2 rfl⟩

/-- C10: every suggestion yielded by `property_completer` carries a
sort-priority string of the form "0 " followed by the property name, every
suggestion yielded by `signal_completer` carries one of the form "1 "
followed by the signal name, and any string starting "0 " orders strictly
before any string starting "1 ", so for the same object-content node property
suggestions always rank before signal suggestions under lexicographic
ordering of the sort key. -/
theorem c10_sort_priority_ranking :
    (∀ (lsp : LspState) (gp : Option (List Property)) (c : Completion),
      c ∈ property_completer lsp gp → ∃ r, c.sort_text = some ("0 " ++ r)) ∧
    (∀ (lsp : LspState) (gs : Option (List Signal)) (parent : Option ObjectInfo)
      (c : Completion), c ∈ signal_completer lsp gs parent →
        ∃ r, c.sort_text = some ("1 " ++ r)) ∧
    (∀ r₁ r₂ : String, ("0 " ++ r₁) < ("1 " ++ r₂)) := by
  refine ⟨?_, ?_, string_append_lt_of_head_lt⟩
  · intro lsp gp c hc
    cases gp with
    | none => simp [property_completer] at hc
    | some props =>
      simp only [property_completer, List.mem_map] at hc
      obtain ⟨p, -, rfl⟩ := hc
      exact ⟨p.name, propertyCompletion_sort_text lsp p⟩
  · intro lsp gs parent c hc
    cases gs with
    | none => simp [signal_completer] at hc
    | some sigs =>
      simp only [signal_completer, List.mem_map] at hc
      obtain ⟨s, -, rfl⟩ := hc
      exact ⟨s.name, signalCompletion_sort_text parent s⟩

/-- Witness for `c10_sort_priority_ranking`: a concrete property suggestion,
a concrete signal suggestion, and the ordering of their sort keys. -/
theorem c10_sort_priority_ranking_witness :
    (∃ r, (propertyCompletion ⟨true⟩
      ⟨"visible", GirType.boolType, false, none, none⟩).sort_text = some ("0 " ++ r)) ∧
    (∃ r, (signalCompletion none ⟨"clicked", none, none⟩).sort_text = some ("1 " ++ r)) ∧
    ("0 " ++ "visible") < ("1 " ++ "clicked") :=
  ⟨c10_sort_priority_ranking.1 ⟨true⟩
      (some [⟨"visible", GirType.boolType, false, none, none⟩]) _
      (by simp [property_completer]),
   c10_sort_priority_ranking.2.1 ⟨true⟩ (some [⟨"clicked", none, none⟩]) none _
      (by simp [signal_completer]),
   c10_sort_priority_ranking.2.2 "visible" "clicked"⟩

/-- The response-action flags accepted by `ExtAdwResponseDialogFlag`'s
grammar: `destructive`, `suggested`, or `disabled`. -/
inductive Flag where
  | destructive
  | suggested
  | disabled
  deriving DecidableEq, Repr

/-- The `flag` property of an `ExtAdwResponseDialogFlag` node: the captured
token's string. -/
def Flag.flag : Flag → String
  | .destructive => "destructive"
  | .suggested => "suggested"
  | .disabled => "disabled"

/-- Modelled from the spec: `AstNode.validate_unique_in_parent` (ast_utils.py
is not in src/) — the validator running on the node at position `i` among the
like-typed siblings reports a diagnostic exactly when some earlier sibling
passes the `check` predicate, so the first occurrence is excluded and each
duplicate is reported at its own position. -/
def validate_unique_in_parent {α : Type} (siblings : List α) (i : Nat)
    (check : α → Bool) : Bool :=
  (siblings.take i).any check

/-- The `exclusive` validator of `ExtAdwResponseDialogFlag`
(adw_response_dialog.py lines 44-50), for the flag node at position `i` among
its response's flag children: if the flag is `destructive` or `suggested`,
report "'suggested' and 'destructive' are exclusive" when an earlier sibling
flag is also `destructive` or `suggested`. -/
def exclusive (flags : List Flag) (i : Nat) : Bool :=
  match flags.get? i with
  | none => false
  | some self =>
    if self.flag ∈ (["destructive", "suggested"] : List String) then
      validate_unique_in_parent flags i
        (fun child => decide (child.flag ∈ (["destructive", "suggested"] : List String)))
    else false

/-- An `ExtAdwResponseDialogResponse` node as its validators see it: its `id`
token and its flag children. -/
structure ExtAdwResponseDialogResponse where
  id : String
  flags : List Flag
  deriving DecidableEq, Repr

/-- The `unique_in_parent` validator of `ExtAdwResponseDialogResponse`
(adw_response_dialog.py lines 96-101), for the response at position `i` in
its responses block: report "Duplicate response ID" when an earlier sibling
response has the same id. -/
def response_unique_in_parent (responses : List ExtAdwResponseDialogResponse)
    (i : Nat) : Bool :=
  match responses.get? i with
  | none => false
  | some self =>
    validate_unique_in_parent responses i (fun child => child.id == self.id)

/-- A source range attached to diagnostics. -/
structure SourceRange where
  start : Nat
  stop : Nat
  deriving DecidableEq, Repr

inductive Severity where
  | error
  | warning
  deriving DecidableEq, Repr

/-- Modelled from the spec: whether a diagnostic of this severity is fatal to
the construct — a `CompileError` is, an `UpgradeWarning`-style advisory is
not (errors.py is not in src/). -/
def Severity.isFatal : Severity → Bool
  | .error => true
  | .warning => false

/-- A quick-fix action: a label plus a literal replacement snippet. -/
structure CodeAction where
  label : String
  replacement : String
  deriving DecidableEq, Repr

/-- Modelled from the spec: the diagnostic record — message, source range,
severity (error vs. warning), optional named quick-fix actions.  The
validator machinery of ast_utils.py (not in src/) catches a raised
`CompileError` or `UpgradeWarning` and attributes it to the raising node's
range; `UpgradeWarning` carries severity warning, a plain `CompileError`
severity error. -/
structure Diagnostic where
  message : String
  range : SourceRange
  severity : Severity
  actions : List CodeAction
  deriving DecidableEq, Repr

/-- An `ExtListItemFactory` node as its `type_name_upgrade` validator sees
it: the optional `TypeName` child and the node's source range. -/
structure ExtListItemFactory where
  type_name : Option String
  range : SourceRange
  deriving DecidableEq, Repr

/-- The `type_name_upgrade` validator of `ExtListItemFactory`
(gtk_list_item_factory.py lines 79-90): when the template block omits the
optional type name it raises an `UpgradeWarning` — caught by the validator
machinery as a severity-warning diagnostic at the node's range — carrying
exactly one quick-fix action whose replacement text is `template ListItem`;
with a type name present it reports nothing. -/
def type_name_upgrade (node : ExtListItemFactory) : Option Diagnostic :=
  match node.type_name with
  | some _ => none
  | none =>
    some { message := "Expected type name after 'template' keyword",
           range := node.range,
           severity := Severity.warning,
           actions := [⟨"Add ListItem type to template block (introduced in blueprint 0.8.0)",
             "template ListItem"⟩] }

/-- C8: when an `ExtListItemFactory` template block omits the optional type
name, validation reports a non-fatal UpgradeWarning-style advisory — severity
warning, not a fatal CompileError — carrying a source range and exactly one
quick-fix action whose replacement text is `template ListItem`; being
non-fatal, the construct itself is still accepted. -/
theorem c8_type_name_upgrade_warning (node : ExtListItemFactory)
    (h : node.type_name = none) :
    ∃ d, type_name_upgrade node = some d ∧
      d.severity = Severity.warning ∧
      d.severity.isFatal = false ∧
      d.range = node.range ∧
      d.actions.length = 1 ∧
      ∀ a ∈ d.actions, a.replacement = "template ListItem" := by
  unfold type_name_upgrade
  rw [h]
  exact ⟨_, rfl, rfl, rfl, rfl, rfl, by simp⟩

/-- Witness for `c8_type_name_upgrade_warning`: a template block with no type
name spanning offsets 0-5. -/
theorem c8_type_name_upgrade_warning_witness :
    ∃ d, type_name_upgrade ⟨none, ⟨0, 5⟩⟩ = some d ∧
      d.severity = Severity.warning ∧
      d.severity.isFatal = false ∧
      d.range = (⟨none, ⟨0, 5⟩⟩ : ExtListItemFactory).range ∧
      d.actions.length = 1 ∧
      ∀ a ∈ d.actions, a.replacement = "template ListItem" :=
  c8_type_name_upgrade_warning ⟨none, ⟨0, 5⟩⟩ rfl

/-- C6: when exactly two sibling responses inside one responses block share
the same ID, the duplicate-ID validator reports exactly one diagnostic,
attributed to the second occurrence in source order; the first occurrence —
and every other position — receives no duplicate diagnostic. -/
theorem c6_duplicate_response_id (responses : List ExtAdwResponseDialogResponse)
    (i j : Nat) (ri rj : ExtAdwResponseDialogResponse)
    (hi : responses.get? i = some ri) (hj : responses.get? j = some rj)
    (hij : i < j) (hid : ri.id = rj.id)
    (honly : ∀ k l rk rl, responses.get? k = some rk → responses.get? l = some rl →
      k < l → rk.id = rl.id → k = i ∧ l = j) :
    response_unique_in_parent responses j = true ∧
    response_unique_in_parent responses i = false ∧
    ∀ k, k ≠ j → response_unique_in_parent responses k = false := by
  have hmain : ∀ k, k ≠ j → response_unique_in_parent responses k = false := by
    intro k hk
    unfold response_unique_in_parent
    cases hkg : responses.get? k with
    | none => rfl
    | some rk =>
      unfold validate_unique_in_parent
      rw [List.any_eq_false]
      intro x hx
      simp only [beq_iff_eq]
      intro hxid
      obtain ⟨m, hm, hxm⟩ := List.mem_take_iff_getElem.mp hx
      have hmlen : m < responses.length := lt_of_lt_of_le hm (min_le_right _ _)
      have hmk : m < k := lt_of_lt_of_le hm (min_le_left _ _)
      have hmg : responses.get? m = some x := by
        rw [List.get?_eq_getElem?, List.getElem?_eq_getElem hmlen, hxm]
      obtain ⟨-, hkj⟩ := honly m k x rk hmg hkg hmk hxid
      exact hk hkj
  refine ⟨?_, hmain i (by omega), hmain⟩
  unfold response_unique_in_parent
  rw [hj]
  unfold validate_unique_in_parent
  rw [List.any_eq_true]
  refine ⟨ri, ?_, by simp [hid]⟩
  rw [List.mem_take_iff_getElem]
  obtain ⟨hilen, hig⟩ := List.get?_eq_some.mp hi
  exact ⟨i, by omega, by simpa using hig⟩

/-- Witness for `c6_duplicate_response_id`: in the responses block
`[yes, no, yes]` the duplicate-ID diagnostic fires at index 2 only. -/
theorem c6_duplicate_response_id_witness :
    response_unique_in_parent
      [⟨"yes", []⟩, ⟨"no", []⟩, ⟨"yes", []⟩] 2 = true ∧
    response_unique_in_parent
      [⟨"yes", []⟩, ⟨"no", []⟩, ⟨"yes", []⟩] 0 = false := by
  have h := c6_duplicate_response_id
    [⟨"yes", []⟩, ⟨"no", []⟩, ⟨"yes", []⟩] 0 2 ⟨"yes", []⟩ ⟨"yes", []⟩
    rfl rfl (by omega) rfl ?honly
  · exact ⟨h.1, h.2.1⟩
  case honly =>
    intro k l rk rl hk hl hkl hide
    have hk3 : k < 3 := by
      obtain ⟨hlt, -⟩ := List.get?_eq_some.mp hk
      simpa using hlt
    have hl3 : l < 3 := by
      obtain ⟨hlt, -⟩ := List.get?_eq_some.mp hl
      simpa using hlt
    interval_cases k <;> interval_cases l <;> simp_all <;>
      (subst hk; subst hl; simp at hide)

/-- The check used by the exclusive-flags validator, as a named predicate:
whether the flag string is `destructive` or `suggested`. -/
def isExclusiveFlag (f : Flag) : Bool :=
  decide (f.flag ∈ (["destructive", "suggested"] : List String))

theorem exclusive_true_iff (flags : List Flag) (i : Nat) :
    exclusive flags i = true ↔
      ∃ self, flags.get? i = some self ∧ isExclusiveFlag self = true ∧
        (flags.take i).any isExclusiveFlag = true := by
  cases hg : flags.get? i with
  | none =>
    have hred : exclusive flags i = false := by
      unfold exclusive
      rw [hg]
    simp [hred]
  | some self =>
    have hred : exclusive flags i =
        if self.flag ∈ (["destructive", "suggested"] : List String) then
          (flags.take i).any
            (fun child => decide (child.flag ∈ (["destructive", "suggested"] : List String)))
        else false := by
      unfold exclusive validate_unique_in_parent
      rw [hg]
    rw [hred]
    by_cases hc : self.flag ∈ (["destructive", "suggested"] : List String)
    · rw [if_pos hc]
      simp only [Option.some.injEq]
      constructor
      · intro h
        exact ⟨self, rfl, by simp [isExclusiveFlag, hc],
          by simpa [isExclusiveFlag] using h⟩
      · rintro ⟨s, hs, -, hany⟩
        subst hs
        simpa [isExclusiveFlag] using hany
    · rw [if_neg hc]
      simp only [Option.some.injEq]
      constructor
      · intro h
        cases h
      · rintro ⟨s, hs, hds, -⟩
        subst hs
        exact absurd (by simpa [isExclusiveFlag] using hds) hc

theorem exclusive_exists_of_two (flags : List Flag) :
    2 ≤ flags.countP isExclusiveFlag → ∃ i, exclusive flags i = true := by
  induction flags with
  | nil =>
    intro h
    simp at h
  | cons f rest ih =>
    intro hcount
    rw [List.countP_cons] at hcount
    by_cases hf : isExclusiveFlag f = true
    · simp only [hf, if_true] at hcount
      have hrest : 0 < rest.countP isExclusiveFlag := by omega
      obtain ⟨x, hx, hxds⟩ := List.countP_pos_iff.mp hrest
      obtain ⟨n, hn⟩ := List.get?_of_mem hx
      refine ⟨n + 1, (exclusive_true_iff _ _).mpr ⟨x, by simpa using hn, hxds, ?_⟩⟩
      rw [List.take_succ_cons, List.any_cons]
      simp [hf]
    · have hc2 : 2 ≤ rest.countP isExclusiveFlag := by
        simp [hf] at hcount
        omega
      obtain ⟨i, hi⟩ := ih hc2
      obtain ⟨self, hg, hds, hany⟩ := (exclusive_true_iff rest i).mp hi
      refine ⟨i + 1, (exclusive_true_iff _ _).mpr ⟨self, by simpa using hg, hds, ?_⟩⟩
      rw [List.take_succ_cons, List.any_cons]
      simp [hany]

/-- Counterexample for C7: a response whose flags are `destructive,
destructive` receives the "'suggested' and 'destructive' are exclusive"
diagnostic (at the second flag) even though `suggested` never appears among
its flags, so "a diagnostic is reported if and only if both flags appear" is
false on the code. -/
theorem c7_counterexample :
    ¬ ((∃ i, exclusive [Flag.destructive, Flag.destructive] i = true) ↔
      (Flag.suggested ∈ [Flag.destructive, Flag.destructive] ∧
        Flag.destructive ∈ [Flag.destructive, Flag.destructive])) := by
  intro h
  have h2 := h.mp ⟨1, by decide⟩
  simp at h2

/-- C7 (amended): the exclusive-flags validator of a response reports a
diagnostic if and only if at least two of the response's flags, counted with
multiplicity, are drawn from {suggested, destructive}; in particular a
response carrying at most one flag-occurrence from that pair receives no such
diagnostic. -/
theorem c7_amended_exclusive (flags : List Flag) :
    (∃ i, exclusive flags i = true) ↔ 2 ≤ flags.countP isExclusiveFlag := by
  constructor
  · rintro ⟨i, hi⟩
    obtain ⟨self, hg, hds, hany⟩ := (exclusive_true_iff flags i).mp hi
    obtain ⟨x, hx, hxds⟩ := List.any_eq_true.mp hany
    obtain ⟨hilen, hget⟩ := List.get?_eq_some.mp hg
    have h1 : flags = flags.take i ++ flags.drop i := (List.take_append_drop _ _).symm
    have h2 : flags.drop i = self :: flags.drop (i + 1) := by
      rw [List.drop_eq_getElem_cons hilen]
      congr 1
    have h3 : 0 < (flags.take i).countP isExclusiveFlag :=
      List.countP_pos_iff.mpr ⟨x, hx, hxds⟩
    have h4 : flags.countP isExclusiveFlag =
        (flags.take i).countP isExclusiveFlag +
          (flags.drop i).countP isExclusiveFlag := by
      conv_lhs => rw [h1]
      rw [List.countP_append]
    rw [h2, List.countP_cons, hds] at h4
    simp at h4
    omega
  · exact exclusive_exists_of_two flags

/-- Witness for `c7_amended_exclusive`: two `destructive` flags trigger the
diagnostic and indeed count two occurrences from the pair. -/
theorem c7_amended_exclusive_witness :
    exclusive [Flag.destructive, Flag.destructive] 1 = true ∧
    2 ≤ List.countP isExclusiveFlag [Flag.destructive, Flag.destructive] :=
  ⟨by decide,
   (c7_amended_exclusive [Flag.destructive, Flag.destructive]).mp ⟨1, by decide⟩⟩

end Blueprint
